import Mathlib

/-!
Verification of `tap_salesforce/sync.py` (pipelinewise-tap-salesforce).

This file shallowly embeds the module's data model and operations and proves
the specified properties about them.

Modelling conventions:
* Python scalar values appearing in records and bookmark state are embedded
  as `PyVal`.  Python `float` is carried as an exact decimal (`PyFloat`):
  the claims in scope concern which coercion branch produces a value, never
  floating-point rounding.  `datetime` objects are carried as an integer
  instant.
* The singer state object is a nested string-keyed mapping
  (stream id → bookmark key → value), embedded as association lists.
* `singer_utils.strptime` / `strptime_with_tz` / `strftime` are external
  collaborators; per the spec their canonical string format must round-trip.
  They are modelled by a concrete decimal codec (`strftime` / `strptime`)
  for which the round-trip law is proved below.  Both parsers raise
  (`TypeError`) on a non-string argument, which the model preserves.
* Python `int(...)` / `float(...)` applied by `fix_record_anytype` are
  modelled on the string forms in scope (optional sign, decimal digits,
  optional fractional part); exponent forms, inf/nan, underscores and
  surrounding whitespace are outside the inputs the claims mention.
* Functions that can raise return `Except Exc _`; generators that yield
  records and can then fail are modelled as a list of yields plus an
  optional raised exception.
* The singer `Transformer` engine is an external collaborator; only its
  `pre_hook` (`transform_bulk_data_hook`) is in scope.  `transformer.transform`
  is modelled as: apply the hook to the record object (dict level), then to
  every field value with that field's schema, passing fields absent from the
  schema through unchanged.
-/

namespace TapSF

/-- an exact decimal, `mant / 10 ^ fracDigits`: the model of a Python
`float` produced by parsing a decimal string (see module header; the claims
in scope never depend on binary floating-point rounding). -/
structure PyFloat where
  mant : Int
  fracDigits : Nat
  deriving DecidableEq, Repr

/-- the Python `float` of an integer. -/
def PyFloat.ofInt (n : Int) : PyFloat := ⟨n, 0⟩

/-- Python `int(f)`: truncation toward zero. -/
def PyFloat.trunc (f : PyFloat) : Int := f.mant / ((10 : Int) ^ f.fracDigits)

/-- Python scalar values flowing through records and bookmark state.
`datetime` carries an instant; `strList` models the list-of-strings value
held by the `BatchIDs` bookmark. -/
inductive PyVal where
  | str (s : String)
  | int (n : Int)
  | float (f : PyFloat)
  | bool (b : Bool)
  | null
  | datetime (t : Int)
  | strList (l : List String)
  deriving DecidableEq, Repr

/-- a Python record (dict): an insertion-ordered association list. -/
abbrev Rec := List (String × PyVal)

/-- the JSON-schema entry of one field.  `type? = none` models the
"anyType" case where the `"type"` key is absent or null (Python
`schema['properties'][k].get("type") is None`). -/
structure FieldSchema where
  type? : Option (List String)
  deriving DecidableEq, Repr

/-- a stream schema: its `properties` mapping. -/
structure Schema where
  properties : List (String × FieldSchema)
  deriving DecidableEq, Repr

/-- the singer state: stream id → (bookmark key → value). -/
abbrev TapState := List (String × List (String × PyVal))

/-- first-match association-list lookup (Python dict access). -/
def alook {α : Type} : List (String × α) → String → Option α
  | [], _ => Option.none
  | (k1, v1) :: rest, k => if k1 = k then some v1 else alook rest k

/-- association-list update, preserving insertion order (Python `d[k] = v`). -/
def setIn {α : Type} : List (String × α) → String → α → List (String × α)
  | [], k, v => [(k, v)]
  | (k1, v1) :: rest, k, v =>
      if k1 = k then (k, v) :: rest else (k1, v1) :: setIn rest k v

/-- `singer.get_bookmark(state, tap_stream_id, key)`: returns the stored value,
or Python `None` (here `PyVal.null`) when the stream or key is absent. -/
def get_bookmark (st : TapState) (sid key : String) : PyVal :=
  match alook ((alook st sid).getD []) key with
  | some v => v
  | Option.none => .null

/-- `singer.write_bookmark(state, tap_stream_id, key, value)`. -/
def write_bookmark (st : TapState) (sid key : String) (v : PyVal) : TapState :=
  setIn st sid (setIn ((alook st sid).getD []) key v)

/-- Python truthiness of an embedded value. -/
def pyTruthy : PyVal → Bool
  | .str s => decide (s ≠ "")
  | .int n => decide (n ≠ 0)
  | .float f => decide (f.mant ≠ 0)
  | .bool b => b
  | .null => false
  | .datetime _ => true
  | .strList l => decide (l ≠ [])

/-! ### Timestamp codec

`singer_utils.strftime` / `strptime(_with_tz)` serialize instants to a
canonical string and back; the spec requires the pair to be inverses.  They
are modelled by a decimal integer codec. -/

/-- render one decimal digit. -/
def digitCh (d : Nat) : Char := Char.ofNat (48 + d)

/-- little-endian base-10 digits, by fuel (kernel-reducible). -/
def natDigitsAux : Nat → Nat → List Nat
  | 0, _ => []
  | fuel + 1, n => if n = 0 then [] else (n % 10) :: natDigitsAux fuel (n / 10)

/-- little-endian base-10 digits of a natural number. -/
def natDigits (n : Nat) : List Nat := natDigitsAux n n

/-- decimal rendering of a natural number (big-endian). -/
def natStr (n : Nat) : List Char :=
  ((natDigits n).map digitCh).reverse

/-- `singer_utils.strftime`: canonical string of an instant. -/
def strftime (t : Int) : String :=
  if t < 0 then String.mk ('-' :: natStr t.natAbs)
  else if t = 0 then "0"
  else String.mk (natStr t.natAbs)

/-- parse a big-endian run of decimal digit characters; `none` when empty or
when a non-digit appears. -/
def decDigits? (cs : List Char) : Option Nat :=
  if cs = [] then Option.none
  else
    cs.foldlM (fun acc c =>
      if 48 ≤ c.toNat ∧ c.toNat ≤ 57 then some (acc * 10 + (c.toNat - 48))
      else Option.none) 0

/-- parse a canonical timestamp string back to an instant. -/
def strptime (s : String) : Option Int :=
  match s.data with
  | [] => Option.none
  | c :: rest =>
    if c = '-' then (decDigits? rest).map (fun n => -(n : Int))
    else (decDigits? (c :: rest)).map (fun n => (n : Int))

/-! ### Exceptions -/

/-- a raised Python exception: whether it is a `TapSalesforceException`
(or subclass), its class name, its message, and its `__cause__` chain. -/
inductive Exc where
  | mk (isTapSalesforce : Bool) (cls : String) (msg : String) (cause : Option Exc)

/-- whether the exception is a `TapSalesforceException` (or subclass). -/
def Exc.isTap : Exc → Bool
  | .mk b _ _ _ => b

/-- the exception's class name. -/
def Exc.cls : Exc → String
  | .mk _ c _ _ => c

/-- the exception's message. -/
def Exc.msg : Exc → String
  | .mk _ _ m _ => m

/-- the exception's `__cause__` (set by `raise ... from ...`). -/
def Exc.cause : Exc → Option Exc
  | .mk _ _ _ c => c

/-- a `TypeError`. -/
def typeError (m : String) : Exc := .mk false "TypeError" m Option.none

/-- a `ValueError`. -/
def valueError (m : String) : Exc := .mk false "ValueError" m Option.none

/-- a `KeyError`. -/
def keyError (m : String) : Exc := .mk false "KeyError" m Option.none

/-- whether an `Except` result is a normal return. -/
def exOk {α : Type} : Except Exc α → Bool
  | .ok _ => true
  | .error _ => false

/-- `singer_utils.strptime_with_tz(v)`: parses a timestamp string; raises
`ValueError` on an unparsable string and `TypeError` on a non-string
argument (e.g. `None` or a `datetime`). -/
def strptime_with_tz : PyVal → Except Exc Int
  | .str s =>
    match strptime s with
    | some t => .ok t
    | Option.none => .error (valueError s)
  | _ => .error (typeError "strptime argument must be str")

/-- `singer_utils.strptime(v)`: same raising discipline as
`strptime_with_tz` (the two differ only in accepted format strings). -/
def singer_strptime (v : PyVal) : Except Exc Int :=
  strptime_with_tz v

/-! ### Python numeric casts used by `fix_record_anytype` -/

/-- Python `int(...)` on a string: optional sign then decimal digits. -/
def pyIntOfStr? (s : String) : Option Int := String.toInt? s

/-- Python `float(...)` on a string: optional sign, decimal digits with an
optional fractional part (`"1."` and `".5"` are accepted, `"."` and `""`
are not).  The result is the exact decimal `iv.fv`. -/
def pyFloatOfStr? (s : String) : Option PyFloat :=
  let step : Option (Nat × Nat) → Char → Option (Nat × Nat) := fun acc c =>
    match acc with
    | some (v, n) =>
      if 48 ≤ c.toNat ∧ c.toNat ≤ 57 then some (v * 10 + (c.toNat - 48), n + 1)
      else Option.none
    | Option.none => Option.none
  let digitsOf : List Char → Option (Nat × Nat) := fun cs =>
    cs.foldl step (some (0, 0))
  let core : List Char → Option PyFloat := fun cs =>
    let intCs := cs.takeWhile (fun c => c ≠ '.')
    let rest := cs.dropWhile (fun c => c ≠ '.')
    let frac? : Option (Nat × Nat) :=
      match rest with
      | [] => some (0, 0)
      | _ :: fcs => digitsOf fcs
    match digitsOf intCs, frac? with
    | some (iv, ni), some (fv, nf) =>
      if ni + nf = 0 then Option.none
      else some ⟨(iv * 10 ^ nf + fv : Nat), nf⟩
    | _, _ => Option.none
  match s.data with
  | '-' :: cs => (core cs).map (fun f => ⟨-f.mant, f.fracDigits⟩)
  | '+' :: cs => core cs
  | cs => core cs

/-- Python `int(v)` as a partial cast on embedded values; `none` models a
raised exception. -/
def pyIntCast : PyVal → Option PyVal
  | .str s => (pyIntOfStr? s).map .int
  | .int n => some (.int n)
  | .float f => some (.int f.trunc)
  | .bool b => some (.int (if b then 1 else 0))
  | _ => Option.none

/-- Python `float(v)` as a partial cast on embedded values; `none` models a
raised exception. -/
def pyFloatCast : PyVal → Option PyVal
  | .str s => (pyFloatOfStr? s).map .float
  | .int n => some (.float (.ofInt n))
  | .float f => some (.float f)
  | .bool b => some (.float (.ofInt (if b then 1 else 0)))
  | _ => Option.none

/-! ### Record post-processing (`transform_bulk_data_hook`, `fix_record_anytype`) -/

/-- `BLACKLISTED_FIELDS = set(['attributes'])`. -/
def BLACKLISTED_FIELDS : List String := ["attributes"]

/-- `remove_blacklisted_fields(data)`. -/
def remove_blacklisted_fields (data : Rec) : Rec :=
  data.filter (fun kv => decide (kv.1 ∉ BLACKLISTED_FIELDS))

/-- `transform_bulk_data_hook` applied at the record (dict) level:
`isinstance(data, dict)` holds so the blacklist filter applies, and a dict
never compares equal to `""` so the null-normalization branch is skipped. -/
def transform_bulk_data_hook_dict (data : Rec) : Rec :=
  remove_blacklisted_fields data

/-- `transform_bulk_data_hook` applied at a scalar field: `result = data`
(not a dict); then `if data == "" and "null" in schema['type']` the result
becomes `None`.  Evaluating `schema['type']` raises (`KeyError` when the key
is absent, `TypeError` for `"null" in None` when it is null) exactly when
the field's declared type is missing, i.e. `type? = none` here. -/
def transform_bulk_data_hook (data : PyVal) (schema : FieldSchema) : Except Exc PyVal :=
  if data = .str "" then
    match schema.type? with
    | Option.none => .error (keyError "type")
    | some ts => if "null" ∈ ts then .ok .null else .ok data
  else .ok data

/-- the field-by-field application of the hook: each field value is passed
through `transform_bulk_data_hook` with its schema entry; fields absent from
the schema pass through.  The first raising field aborts. -/
def transFields (schema : Schema) : Rec → Except Exc Rec
  | [] => .ok []
  | (k, v) :: rest =>
    let hv : Except Exc PyVal :=
      match alook schema.properties k with
      | some fs => transform_bulk_data_hook v fs
      | Option.none => .ok v
    match hv with
    | .error e => .error e
    | .ok w => (transFields schema rest).map (fun r => (k, w) :: r)

/-- `transformer.transform(rec, schema)` with `pre_hook=transform_bulk_data_hook`:
the external singer engine applies the hook to the record object and then to
each field value with that field's schema (the engine's own schema coercion
is an external collaborator, out of scope). -/
def transform_rec (rec : Rec) (schema : Schema) : Except Exc Rec :=
  transFields schema (transform_bulk_data_hook_dict rec)

/-- `try_cast(val, coercion)`: returns the coerced value, or the argument
unchanged when the coercion raises (`except BaseException`). -/
def try_cast (v : PyVal) (c : PyVal → Option PyVal) : PyVal :=
  match c v with
  | some w => w
  | Option.none => v

/-- the per-value coercion applied by `fix_record_anytype` to a field whose
schema declares no type.  Mirrors the source exactly: each `try_cast` is
applied to the original `v` (so a successful int parse is overwritten by the
unconditional float cast), then the boolean-literal and empty-string rules. -/
def anyTypeRepair (v : PyVal) : PyVal :=
  let val := v
  let val := try_cast v pyIntCast
  let val := try_cast v pyFloatCast
  let val := if v = .str "true" ∨ v = .str "false" then .bool (v = .str "true") else val
  let val := if v = .str "" then .null else val
  val

/-- the field loop of `fix_record_anytype`: for each field, look up
`schema['properties'][k]` (raising `KeyError` when absent) and, when its
`"type"` is absent or null, replace the value by `anyTypeRepair`; typed
fields are left untouched. -/
def fixFields (schema : Schema) : Rec → Except Exc Rec
  | [] => .ok []
  | (k, v) :: rest =>
    match alook schema.properties k with
    | Option.none => .error (keyError k)
    | some fs =>
      (fixFields schema rest).map
        (fun r => (k, if fs.type?.isNone then anyTypeRepair v else v) :: r)

/-- `fix_record_anytype(rec, schema)`. -/
def fix_record_anytype (rec : Rec) (schema : Schema) : Except Exc Rec :=
  fixFields schema rec

/-- the per-record pipeline applied before emission:
`rec = transformer.transform(rec, schema); rec = fix_record_anytype(rec, schema)`. -/
def postprocess (rec : Rec) (schema : Schema) : Except Exc Rec := do
  fix_record_anytype (← transform_rec rec schema) schema

/-! ### Stream descriptor, source engine, stream version -/

/-- the catalog entry fields read by this module. -/
structure Catalog where
  tap_stream_id : String
  stream : String
  stream_alias : Option String
  replication_key : Option String
  schema : Schema

/-- Python truthiness of `catalog_entry.get('replication_key')`
(`None` and `""` are falsy). -/
def rkTruthy (cat : Catalog) : Bool :=
  match cat.replication_key with
  | some k => decide (k ≠ "")
  | Option.none => false

/-- `stream_alias or stream`. -/
def streamName (cat : Catalog) : String :=
  match cat.stream_alias with
  | some a => if a = "" then cat.stream else a
  | Option.none => cat.stream

/-- the external source query engine (`sf`): the pk-chunking flag, the
start-date policy result, the records yielded by `sf.query`, an optional
exception the query generator raises after its yields, and the records of
each batch of a bulk job (`bulk.get_batch_results`). -/
structure SF where
  pk_chunking : Bool
  start_date : String
  query_result : List Rec
  query_raises : Option Exc
  batch_results : String → String → List Rec

/-- `get_stream_version(catalog_entry, state)`.  `now_ms` is the external
wall clock in milliseconds (`int(time.time() * 1000)`).  The `or` keeps the
bookmarked version only when it is truthy. -/
def get_stream_version (cat : Catalog) (st : TapState) (now_ms : Int) : PyVal :=
  let b := get_bookmark st cat.tap_stream_id "version"
  let stream_version := if pyTruthy b then b else .int now_ms
  if rkTruthy cat then stream_version else .int now_ms

/-! ### Emitted messages and the simple sync driver (`sync_records`) -/

/-- messages accepted by the singer emitter: record messages and
activate-version messages. -/
inductive Msg where
  | record (stream : String) (rec : Rec) (version : PyVal) (time_extracted : Int)
  | activate (stream : String) (version : PyVal)
  deriving DecidableEq, Repr

/-- the observable outcome of a sync pass: emitted messages, the state
snapshots flushed by `singer.write_state` (in order), the records counted,
and the final state or the raised exception.  On a raise, `msgs`/`flushes`
hold everything produced before it. -/
structure SyncOut where
  msgs : List Msg
  flushes : List TapState
  count : Nat
  final : Except Exc TapState

/-- `replication_key and singer_utils.strptime_with_tz(rec[replication_key])`:
`none` when the replication key is falsy; otherwise the record's raw value
under that key (raising `KeyError` when absent) paired with its parsed
instant (parse failures raise).  A parsed datetime is always truthy. -/
def rkValue (cat : Catalog) (rec : Rec) : Except Exc (Option (PyVal × Int)) :=
  match cat.replication_key with
  | Option.none => .ok Option.none
  | some k =>
    if k = "" then .ok Option.none
    else
      match alook rec k with
      | Option.none => .error (keyError k)
      | some v =>
        match strptime_with_tz v with
        | .ok t => .ok (some (v, t))
        | .error e => .error e

/-- the record loop of `sync_records` plus the code after it, parameterized
by the remaining query yields, the running `chunked_bookmark`, and the
current state.  `ver` is the pass's `stream_version`, `start_time` the
pass-start timestamp. -/
def syncLoop (sf : SF) (cat : Catalog) (ver : PyVal) (start_time : Int) :
    List Rec → Int → TapState → SyncOut
  | [], cb, st =>
    match sf.query_raises with
    | some e => ⟨[], [], 0, .error e⟩
    | Option.none =>
      -- lines 147-152: tables with no replication key activate their version
      let msgs1 : List Msg :=
        if rkTruthy cat then [] else [.activate (streamName cat) ver]
      let st1 : TapState :=
        if rkTruthy cat then st
        else write_bookmark st cat.tap_stream_id "version" .null
      -- lines 154-161: with pk_chunking, write the end-of-pass bookmark; the
      -- source passes the datetime `chunked_bookmark` to `singer_utils.strptime`
      if sf.pk_chunking then
        match singer_strptime (.datetime cb) with
        | .error e => ⟨msgs1, [], 0, .error e⟩
        | .ok t =>
          ⟨msgs1, [], 0,
            .ok (write_bookmark st1 cat.tap_stream_id
                  ((cat.replication_key).getD "") (.datetime t))⟩
      else ⟨msgs1, [], 0, .ok st1⟩
  | r :: rest, cb, st =>
    match postprocess r cat.schema with
    | .error e => ⟨[], [], 1, .error e⟩
    | .ok rec =>
      let m : Msg := .record (streamName cat) rec ver start_time
      match rkValue cat rec with
      | .error e => ⟨[m], [], 1, .error e⟩
      | .ok rkv =>
        if sf.pk_chunking then
          match rkv with
          | some (_, t) =>
            if t ≤ start_time ∧ cb < t then
              -- lines 128-136: advance the candidate and flush the state
              let st1 := write_bookmark st cat.tap_stream_id
                "JobHighestBookmarkSeen" (.str (strftime t))
              let out := syncLoop sf cat ver start_time rest t st1
              ⟨m :: out.msgs, st1 :: out.flushes, out.count + 1, out.final⟩
            else
              let out := syncLoop sf cat ver start_time rest cb st
              ⟨m :: out.msgs, out.flushes, out.count + 1, out.final⟩
          | Option.none =>
            let out := syncLoop sf cat ver start_time rest cb st
            ⟨m :: out.msgs, out.flushes, out.count + 1, out.final⟩
        else
          match rkv with
          | some (raw, t) =>
            if t ≤ start_time then
              -- lines 139-145: write the authoritative cursor and flush
              let st1 := write_bookmark st cat.tap_stream_id
                ((cat.replication_key).getD "") raw
              let out := syncLoop sf cat ver start_time rest cb st1
              ⟨m :: out.msgs, st1 :: out.flushes, out.count + 1, out.final⟩
            else
              let out := syncLoop sf cat ver start_time rest cb st
              ⟨m :: out.msgs, out.flushes, out.count + 1, out.final⟩
          | Option.none =>
            let out := syncLoop sf cat ver start_time rest cb st
            ⟨m :: out.msgs, out.flushes, out.count + 1, out.final⟩

/-- `sync_records(sf, catalog_entry, state, counter)`.  `now_ms` is the wall
clock consulted by `get_stream_version`; `start_time` is
`singer_utils.now()`.  The pass seeds `chunked_bookmark` by parsing the
stream's start date. -/
def sync_records (sf : SF) (cat : Catalog) (st : TapState)
    (now_ms start_time : Int) : SyncOut :=
  match strptime_with_tz (.str sf.start_date) with
  | .error e => ⟨[], [], 0, .error e⟩
  | .ok cb0 =>
    let ver := get_stream_version cat st now_ms
    syncLoop sf cat ver start_time sf.query_result cb0 st

/-- `sync_stream(sf, catalog_entry, state)`: runs the pass, flushes the
state on success and returns the counter; on a `TapSalesforceException`
re-raises the same class with the stream name prefixed to the message (no
explicit cause); on any other exception raises a generic `Exception`
carrying the stream name `from ex` (cause chained). -/
def sync_stream (sf : SF) (cat : Catalog) (st : TapState)
    (now_ms start_time : Int) : Except Exc (TapState × Nat) :=
  let out := sync_records sf cat st now_ms start_time
  match out.final with
  | .ok st1 => .ok (st1, out.count)
  | .error ex =>
    if ex.isTap then
      .error (.mk true ex.cls ("Error syncing " ++ cat.stream ++ ": " ++ ex.msg)
        Option.none)
    else
      .error (.mk false "Exception"
        ("Unexpected error syncing " ++ cat.stream ++ ": " ++ ex.msg) (some ex))

/-! ### Resumable batch-job driver (`resume_syncing_bulk_query`) -/

/-- the observable outcome of a resume run: messages, flushed snapshots,
the batch ids passed to `bulk.get_batch_results` (in request order), the
record count, and the final state or raised exception. -/
structure ResumeOut where
  msgs : List Msg
  flushes : List TapState
  requests : List String
  count : Nat
  final : Except Exc TapState

/-- remove the first occurrence of an element (Python `list.remove`; the
element is always present along these executions). -/
def removeFirst : List String → String → List String
  | [], _ => []
  | x :: rest, b => if x = b then rest else x :: removeFirst rest b

/-- the inner record loop of `resume_syncing_bulk_query` over one batch's
records: emits each processed record and advances the in-memory watermark
when the replication-key value is ≤ `start_time` and > the current
watermark.  Returns the messages, the count and (unless a record raised)
the advanced watermark. -/
def drainBatch (cat : Catalog) (ver : PyVal) (start_time : Int) :
    List Rec → Int → List Msg × Nat × Except Exc Int
  | [], cb => ([], 0, .ok cb)
  | r :: rest, cb =>
    match postprocess r cat.schema with
    | .error e => ([], 1, .error e)
    | .ok rec =>
      let m : Msg := .record (streamName cat) rec ver start_time
      match rkValue cat rec with
      | .error e => ([m], 1, .error e)
      | .ok rkv =>
        let cb1 :=
          match rkv with
          | some (_, t) => if t ≤ start_time ∧ cb < t then t else cb
          | Option.none => cb
        let out := drainBatch cat ver start_time rest cb1
        (m :: out.1, out.2.1 + 1, out.2.2)

/-- the batch loop of `resume_syncing_bulk_query`: iterates over the copied
batch-id list while removing each drained id from the live list stored in
the state (`batch_ids.remove(batch_id)` mutates the bookmarked list; the
model writes the shortened list back explicitly), then flushes. -/
def resumeLoop (sf : SF) (cat : Catalog) (job_id : String) (ver : PyVal)
    (start_time : Int) :
    List String → List String → Int → TapState → ResumeOut
  | [], _, _, st => ⟨[], [], [], 0, .ok st⟩
  | b :: rest, live, cb, st =>
    let dr := drainBatch cat ver start_time (sf.batch_results job_id b) cb
    match dr.2.2 with
    | .error e => ⟨dr.1, [], [b], dr.2.1, .error e⟩
    | .ok cb1 =>
      -- lines 73-78: write the watermark, remove the batch id, flush
      let st1 := write_bookmark st cat.tap_stream_id
        "JobHighestBookmarkSeen" (.str (strftime cb1))
      let live1 := removeFirst live b
      let st2 := write_bookmark st1 cat.tap_stream_id "BatchIDs" (.strList live1)
      let out := resumeLoop sf cat job_id ver start_time rest live1 cb1 st2
      ⟨dr.1 ++ out.msgs, st2 :: out.flushes, b :: out.requests,
        dr.2.1 + out.count, out.final⟩

/-- the watermark seed `resume_syncing_bulk_query` reconstructs:
`get_bookmark(..., 'JobHighestBookmarkSeen') or sf.get_start_date(...)` —
the bookmark when truthy, else the start date. -/
def resumeSeed (sf : SF) (cat : Catalog) (st : TapState) : PyVal :=
  let b := get_bookmark st cat.tap_stream_id "JobHighestBookmarkSeen"
  if pyTruthy b then b else .str sf.start_date

/-- `resume_syncing_bulk_query(sf, catalog_entry, job_id, state, counter)`:
reconstructs the watermark from `JobHighestBookmarkSeen` (falling back to
the start date when that bookmark is falsy), reads the pending `BatchIDs`
(raising `TypeError` when the bookmark does not hold a list, e.g. `None`),
and drains each batch in order. -/
def resume_syncing_bulk_query (sf : SF) (cat : Catalog) (job_id : String)
    (st : TapState) (now_ms start_time : Int) : ResumeOut :=
  match strptime_with_tz (resumeSeed sf cat st) with
  | .error e => ⟨[], [], [], 0, .error e⟩
  | .ok cb0 =>
    match get_bookmark st cat.tap_stream_id "BatchIDs" with
    | .strList ids =>
      let ver := get_stream_version cat st now_ms
      resumeLoop sf cat job_id ver start_time ids ids cb0 st
    | _ => ⟨[], [], [], 0, .error (typeError "BatchIDs is not a list")⟩

/-- the watermark reached after draining one batch from watermark `cb`
(unchanged when the batch raises — used only under completion hypotheses). -/
def batchWatermark (sf : SF) (cat : Catalog) (job_id : String) (ver : PyVal)
    (start_time : Int) (cb : Int) (b : String) : Int :=
  match (drainBatch cat ver start_time (sf.batch_results job_id b) cb).2.2 with
  | .ok c => c
  | .error _ => cb

/-- the watermark reached after draining a list of batches in order. -/
def watermarkAfter (sf : SF) (cat : Catalog) (job_id : String) (ver : PyVal)
    (start_time : Int) (cb : Int) (bs : List String) : Int :=
  bs.foldl (batchWatermark sf cat job_id ver start_time) cb

/-- the messages one batch emits (independent of the incoming watermark). -/
def batchMsgs (sf : SF) (cat : Catalog) (job_id : String) (ver : PyVal)
    (start_time : Int) (b : String) : List Msg :=
  (drainBatch cat ver start_time (sf.batch_results job_id b) 0).1

/-! ### Observables used by the statements -/

/-- the record payloads carried by a message list, in emission order. -/
def recordPayloads (msgs : List Msg) : List Rec :=
  msgs.filterMap (fun m =>
    match m with
    | .record _ r _ _ => some r
    | _ => Option.none)

/-- the parsed replication-key value of a record, when present and parsable. -/
def rkParsed (k : String) (r : Rec) : Option Int :=
  match alook r k with
  | some v => (strptime_with_tz v).toOption
  | Option.none => Option.none

/-- the raw replication-key value of a record when it parses to an instant
within the pass-start bound (the values eligible to advance the cursor). -/
def qualRaw (k : String) (start : Int) (r : Rec) : Option PyVal :=
  match alook r k with
  | some v =>
    match strptime_with_tz v with
    | .ok t => if t ≤ start then some v else Option.none
    | .error _ => Option.none
  | Option.none => Option.none

/-- the parsed replication-key value of a record when within the pass-start
bound. -/
def qualVal (k : String) (start : Int) (r : Rec) : Option Int :=
  match rkParsed k r with
  | some t => if t ≤ start then some t else Option.none
  | Option.none => Option.none

/-- whether draining a batch raises (independent of the incoming watermark). -/
def batchOK (sf : SF) (cat : Catalog) (job_id : String) (ver : PyVal)
    (start_time : Int) (b : String) : Bool :=
  exOk (drainBatch cat ver start_time (sf.batch_results job_id b) 0).2.2

/-! ### Concrete worlds for witnesses and counterexamples -/

/-- a schema whose six fields all have no declared type ("anyType"). -/
def wSch6 : Schema :=
  ⟨[("a", ⟨Option.none⟩), ("b", ⟨Option.none⟩), ("c", ⟨Option.none⟩),
    ("d", ⟨Option.none⟩), ("e", ⟨Option.none⟩), ("f", ⟨Option.none⟩)]⟩

/-- the six untyped raw text inputs of the repair property. -/
def wRec6 : Rec :=
  [("a", .str "42"), ("b", .str "3.14"), ("c", .str "true"),
   ("d", .str "false"), ("e", .str ""), ("f", .str "hello")]

/-- a catalog entry for stream `"s"` replicated on key `"K"` (typed string). -/
def wCatK : Catalog :=
  ⟨"s", "s", Option.none, some "K", ⟨[("K", ⟨some ["string"]⟩)]⟩⟩

/-- a catalog entry for stream `"s"` with no replication key. -/
def wCatN : Catalog :=
  ⟨"s", "s", Option.none, Option.none, ⟨[("Id", ⟨some ["string"]⟩)]⟩⟩

/-- a non-chunked source yielding two records whose replication-key values
arrive out of order (5 then 3). -/
def wSfC1 : SF :=
  ⟨false, "0", [[("K", .str "5")], [("K", .str "3")]], Option.none, fun _ _ => []⟩

/-- the state `wSfC1` leaves behind. -/
def wStC1 : TapState := [("s", [("K", PyVal.str "3")])]

/-- a non-chunked source yielding two in-order records (3 then 5). -/
def wSfC1b : SF :=
  ⟨false, "0", [[("K", .str "3")], [("K", .str "5")]], Option.none, fun _ _ => []⟩

/-- a chunked source yielding one record. -/
def wSfC4 : SF :=
  ⟨true, "0", [[("K", .str "5")]], Option.none, fun _ _ => []⟩

/-- a non-chunked full-table source yielding one record. -/
def wSfN : SF :=
  ⟨false, "0", [[("Id", .str "x")]], Option.none, fun _ _ => []⟩

/-- a state whose `version` bookmark exists but is `0` (falsy). -/
def wStV0 : TapState := [("s", [("version", PyVal.int 0)])]

/-- a source whose query generator raises a `TapSalesforceException`
subclass after yielding nothing. -/
def wSfT : SF :=
  ⟨false, "0", [], some (.mk true "TapSalesforceQuotaExceededException"
    "quota exceeded" Option.none), fun _ _ => []⟩

/-- a bulk source with two pending batches of one record each. -/
def wSfR : SF :=
  ⟨true, "0", [], Option.none,
    fun _ b => if b = "b1" then [[("K", .str "4")]] else [[("K", .str "6")]]⟩

/-- a state with two pending batch ids. -/
def wStR : TapState := [("s", [("BatchIDs", PyVal.strList ["b1", "b2"])])]

/-! ## Theorems

First the generic facts about the state mapping and the timestamp codec,
then per-component characterizations, then the specified properties. -/

theorem alook_setIn_self {α : Type} (l : List (String × α)) (k : String) (v : α) :
    alook (setIn l k v) k = some v := by
  induction l with
  | nil => simp [setIn, alook]
  | cons kv rest ih =>
    obtain ⟨k1, v1⟩ := kv
    by_cases h : k1 = k
    · simp [setIn, h, alook]
    · simp [setIn, h, alook, ih]

theorem alook_setIn_ne {α : Type} (l : List (String × α)) {k k' : String}
    (h : k' ≠ k) (v : α) : alook (setIn l k v) k' = alook l k' := by
  have h2 : k ≠ k' := Ne.symm h
  induction l with
  | nil => simp [setIn, alook, h2]
  | cons kv rest ih =>
    obtain ⟨k1, v1⟩ := kv
    by_cases h1 : k1 = k
    · subst h1
      simp [setIn, alook, h2]
    · simp [setIn, h1, alook, ih]

theorem get_write_self (st : TapState) (sid k : String) (v : PyVal) :
    get_bookmark (write_bookmark st sid k v) sid k = v := by
  simp [get_bookmark, write_bookmark, alook_setIn_self]

theorem get_write_ne (st : TapState) {sid k sid' k' : String}
    (h : sid' = sid → k' ≠ k) (v : PyVal) :
    get_bookmark (write_bookmark st sid k v) sid' k' = get_bookmark st sid' k' := by
  by_cases hs : sid' = sid
  · subst hs
    simp [get_bookmark, write_bookmark, alook_setIn_self, alook_setIn_ne _ (h rfl)]
  · simp [get_bookmark, write_bookmark, alook_setIn_ne _ hs]

/-! ### Codec round-trip -/

theorem digitCh_toNat {d : Nat} (h : d < 10) : (digitCh d).toNat = 48 + d := by
  interval_cases d <;> rfl

theorem digitCh_ne_dash {d : Nat} (h : d < 10) : digitCh d ≠ '-' := by
  interval_cases d <;> decide

theorem decDigits_loop (bs : List Nat) (h : ∀ d ∈ bs, d < 10) :
    ∀ acc : Nat,
      (bs.map digitCh).foldlM
        (fun acc c =>
          if 48 ≤ c.toNat ∧ c.toNat ≤ 57 then some (acc * 10 + (c.toNat - 48))
          else Option.none) acc
      = some (bs.foldl (fun a d => a * 10 + d) acc) := by
  induction bs with
  | nil => intro acc; rfl
  | cons b rest ih =>
    intro acc
    have hb : b < 10 := h b (by simp)
    have hrest : ∀ d ∈ rest, d < 10 := fun d hd => h d (by simp [hd])
    have ht : (digitCh b).toNat = 48 + b := digitCh_toNat hb
    simp only [List.map_cons, List.foldlM_cons, ht]
    have hcond : 48 ≤ 48 + b ∧ 48 + b ≤ 57 := by omega
    rw [if_pos hcond]
    have : 48 + b - 48 = b := by omega
    rw [this]
    simpa using ih hrest (acc * 10 + b)

theorem foldl_ofDigits (bs : List Nat) :
    ∀ acc : Nat,
      bs.foldl (fun a d => a * 10 + d) acc
      = acc * 10 ^ bs.length + Nat.ofDigits 10 bs.reverse := by
  induction bs with
  | nil => intro acc; simp [Nat.ofDigits]
  | cons b rest ih =>
    intro acc
    simp only [List.foldl_cons, List.length_cons, List.reverse_cons]
    rw [ih (acc * 10 + b), Nat.ofDigits_append]
    simp [Nat.ofDigits]
    ring

theorem natDigitsAux_eq (fuel : Nat) :
    ∀ n : Nat, n ≤ fuel → natDigitsAux fuel n = Nat.digits 10 n := by
  induction fuel with
  | zero =>
    intro n hn
    obtain rfl : n = 0 := by omega
    simp [natDigitsAux, Nat.digits_zero]
  | succ fuel ih =>
    intro n hn
    by_cases h0 : n = 0
    · subst h0
      simp [natDigitsAux, Nat.digits_zero]
    · have hpos : 0 < n := by omega
      rw [show natDigitsAux (fuel + 1) n = (n % 10) :: natDigitsAux fuel (n / 10) by
        simp [natDigitsAux, h0]]
      rw [Nat.digits_def' (by norm_num : 1 < 10) hpos]
      have hdiv : n / 10 ≤ fuel := by
        have := Nat.div_lt_self hpos (by norm_num : 1 < 10)
        omega
      rw [ih (n / 10) hdiv]

theorem natDigits_eq (n : Nat) : natDigits n = Nat.digits 10 n :=
  natDigitsAux_eq n n le_rfl

theorem decDigits_natStr {n : Nat} (hn : n ≠ 0) : decDigits? (natStr n) = some n := by
  have hne : Nat.digits 10 n ≠ [] := Nat.digits_ne_nil_iff_ne_zero.mpr hn
  have hlt : ∀ d ∈ (Nat.digits 10 n).reverse, d < 10 := by
    intro d hd
    exact Nat.digits_lt_base (by norm_num) (List.mem_reverse.mp hd)
  have hrw : natStr n = ((Nat.digits 10 n).reverse).map digitCh := by
    simp [natStr, natDigits_eq, List.map_reverse]
  have hne2 : ((Nat.digits 10 n).reverse).map digitCh ≠ [] := by
    simp [hne]
  rw [hrw]
  unfold decDigits?
  rw [if_neg hne2, decDigits_loop _ hlt 0, foldl_ofDigits]
  simp [Nat.ofDigits_digits]

theorem natStr_head_digit {n : Nat} (hn : n ≠ 0) :
    ∃ d cs, natStr n = digitCh d :: cs ∧ d < 10 := by
  have hne : Nat.digits 10 n ≠ [] := Nat.digits_ne_nil_iff_ne_zero.mpr hn
  have hrw : natStr n = ((Nat.digits 10 n).reverse).map digitCh := by
    simp [natStr, natDigits_eq, List.map_reverse]
  rcases hx : (Nat.digits 10 n).reverse with _ | ⟨d, ds⟩
  · exact absurd (by simpa using congrArg List.reverse hx) hne
  · refine ⟨d, ds.map digitCh, by rw [hrw, hx]; rfl, ?_⟩
    exact Nat.digits_lt_base (by norm_num)
      (List.mem_reverse.mp (by rw [hx]; simp))

theorem strptime_dash (cs : List Char) :
    strptime ⟨'-' :: cs⟩ = (decDigits? cs).map (fun n => -(n : Int)) := rfl

theorem strptime_head {c : Char} (hc : c ≠ '-') (cs : List Char) :
    strptime ⟨c :: cs⟩ = (decDigits? (c :: cs)).map (fun n => (n : Int)) := by
  unfold strptime
  simp [hc]

/-- the canonical timestamp format round-trips (spec §8). -/
theorem strptime_strftime (t : Int) : strptime (strftime t) = some t := by
  by_cases hneg : t < 0
  · have habs : t.natAbs ≠ 0 := by omega
    have hft : strftime t = String.mk ('-' :: natStr t.natAbs) := by
      simp [strftime, hneg]
    rw [hft, strptime_dash, decDigits_natStr habs]
    show some (-((t.natAbs : Nat) : Int)) = some t
    congr 1
    omega
  · by_cases hz : t = 0
    · subst hz; rfl
    · have habs : t.natAbs ≠ 0 := by omega
      have hft : strftime t = String.mk (natStr t.natAbs) := by
        simp [strftime, hneg, hz]
      obtain ⟨d, cs, hds, hd10⟩ := natStr_head_digit habs
      rw [hft, hds, strptime_head (digitCh_ne_dash hd10), ← hds,
        decDigits_natStr habs]
      show some ((t.natAbs : Nat) : Int) = some t
      congr 1
      omega

theorem strftime_ne_empty (t : Int) : strftime t ≠ "" := by
  intro h
  have := strptime_strftime t
  rw [h] at this
  exact Option.noConfusion this

theorem strptime_with_tz_strftime (t : Int) :
    strptime_with_tz (.str (strftime t)) = .ok t := by
  simp [strptime_with_tz, strptime_strftime]

/-! ### Untyped-field repair and post-processing totality -/

/-- C7: the untyped-field repair on the six specified raw inputs.  The code
yields the float 42.0 (decimal ⟨42, 0⟩) for `"42"`, not the integer 42 the
spec states: the result of `try_cast(v, int)` is unconditionally overwritten
by `try_cast(v, float)`, which succeeds on every int-parsable string.  The
other five inputs behave as specified (`"3.14"` ↦ float 3.14 = ⟨314, 2⟩,
`"true"`/`"false"` ↦ booleans, `""` ↦ null, `"hello"` ↦ unchanged). -/
theorem fix_anytype_six_inputs :
    fix_record_anytype wRec6 wSch6 =
      .ok [("a", .float ⟨42, 0⟩), ("b", .float ⟨314, 2⟩), ("c", .bool true),
           ("d", .bool false), ("e", .null), ("f", .str "hello")] ∧
    PyVal.float ⟨42, 0⟩ ≠ PyVal.int 42 :=
  ⟨rfl, by decide⟩

/-- C8 counterexample: the post-processing pipeline raises on the record
`{"f": ""}` when field `f` has no declared type — the hook evaluates
`schema['type']` on the empty-string branch and that lookup raises. -/
theorem postprocess_raises_on_untyped_empty :
    postprocess [("f", .str "")] ⟨[("f", ⟨Option.none⟩)]⟩ = .error (keyError "type") :=
  rfl

theorem transFields_total (schema : Schema) :
    ∀ l : Rec,
      (∀ kv ∈ l, kv.2 = .str "" →
        ∃ fs ts, alook schema.properties kv.1 = some fs ∧ fs.type? = some ts) →
      ∃ r : Rec, transFields schema l = .ok r ∧ r.map Prod.fst = l.map Prod.fst := by
  intro l
  induction l with
  | nil => intro _; exact ⟨[], rfl, rfl⟩
  | cons kv rest ih =>
    intro h
    obtain ⟨k, v⟩ := kv
    obtain ⟨r0, hr0, hk0⟩ := ih (fun kv hm he => h kv (by simp [hm]) he)
    have hval : ∃ w, (match alook schema.properties k with
        | some fs => transform_bulk_data_hook v fs
        | Option.none => .ok v) = Except.ok w := by
      rcases hp : alook schema.properties k with _ | fs
      · exact ⟨v, rfl⟩
      · by_cases hv : v = .str ""
        · obtain ⟨fs1, ts, hfs1, hts⟩ := h (k, v) (by simp) hv
          rw [hp] at hfs1
          obtain rfl : fs = fs1 := by injection hfs1
          simp only [transform_bulk_data_hook, hv, if_pos rfl, hts]
          by_cases hn : "null" ∈ ts
          · exact ⟨.null, by simp [hn]⟩
          · exact ⟨.str "", by simp [hn]⟩
        · exact ⟨v, by simp [transform_bulk_data_hook, hv]⟩
    obtain ⟨w, hw⟩ := hval
    refine ⟨(k, w) :: r0, ?_, by simp [hk0]⟩
    simp only [transFields, hw, hr0]
    rfl

theorem fixFields_total (schema : Schema) :
    ∀ l : Rec, (∀ kv ∈ l, (alook schema.properties kv.1).isSome = true) →
      ∃ r : Rec, fixFields schema l = .ok r := by
  intro l
  induction l with
  | nil => intro _; exact ⟨[], rfl⟩
  | cons kv rest ih =>
    intro h
    obtain ⟨k, v⟩ := kv
    obtain ⟨r0, hr0⟩ := ih (fun kv hm => h kv (by simp [hm]))
    have hk : (alook schema.properties k).isSome = true := h (k, v) (by simp)
    rcases hp : alook schema.properties k with _ | fs
    · rw [hp] at hk; simp at hk
    · exact ⟨(k, if fs.type?.isNone then anyTypeRepair v else v) :: r0,
        by simp only [fixFields, hp, hr0]; rfl⟩

/-- C8 (amended): the post-processing pipeline (`transformer.transform`
with the hook, then `fix_record_anytype`) is total for every record whose
fields all appear in the schema's properties and whose empty-string values
belong to fields with a declared type; within it, `try_cast` swallows every
coercion failure, so per-record coercion problems never escalate.  (As
stated over all inputs the claim fails: see
`postprocess_raises_on_untyped_empty` — an untyped field holding `""` makes
the hook raise, and a field absent from the schema makes
`fix_record_anytype` raise.) -/
theorem postprocess_total (rec : Rec) (schema : Schema)
    (h1 : ∀ kv ∈ rec, (alook schema.properties kv.1).isSome = true)
    (h2 : ∀ kv ∈ rec, kv.2 = .str "" →
      ∃ fs ts, alook schema.properties kv.1 = some fs ∧ fs.type? = some ts) :
    exOk (postprocess rec schema) = true := by
  have hsub : ∀ kv ∈ transform_bulk_data_hook_dict rec, kv ∈ rec := by
    intro kv hm
    exact (List.mem_filter.mp hm).1
  obtain ⟨r, hr, hkeys⟩ := transFields_total schema (transform_bulk_data_hook_dict rec)
    (fun kv hm he => h2 kv (hsub kv hm) he)
  have hr1 : ∀ kv ∈ r, (alook schema.properties kv.1).isSome = true := by
    intro kv hm
    have : kv.1 ∈ r.map Prod.fst := List.mem_map.mpr ⟨kv, hm, rfl⟩
    rw [hkeys] at this
    obtain ⟨kv0, hkv0, hfst⟩ := List.mem_map.mp this
    have := h1 kv0 (hsub kv0 hkv0)
    rwa [hfst] at this
  obtain ⟨r2, hr2⟩ := fixFields_total schema r hr1
  have hr3 : transform_rec rec schema = Except.ok r := hr
  have hpp : postprocess rec schema = fix_record_anytype r schema := by
    unfold postprocess
    rw [hr3]
    rfl
  rw [hpp, show fix_record_anytype r schema = Except.ok r2 from hr2]
  rfl

/-- C8 witness: the pipeline succeeds on a well-typed record. -/
theorem postprocess_total_w :
    exOk (postprocess [("Id", .str "x")] ⟨[("Id", ⟨some ["string"]⟩)]⟩) = true :=
  postprocess_total [("Id", .str "x")] ⟨[("Id", ⟨some ["string"]⟩)]⟩
    (by decide)
    (by
      intro kv hkv heq
      simp only [List.mem_singleton] at hkv
      subst hkv
      exact absurd heq (by decide))

theorem fixFields_typed_frame (schema : Schema) :
    ∀ l r : Rec, fixFields schema l = .ok r →
      ∀ (k : String) (v : PyVal) (fs : FieldSchema) (ts : List String),
        alook l k = some v → alook schema.properties k = some fs →
        fs.type? = some ts → alook r k = some v := by
  intro l
  induction l with
  | nil =>
    intro r hok k v fs ts hv _ _
    simp [alook] at hv
  | cons kv rest ih =>
    intro r hok k v fs ts hv hfs hts
    obtain ⟨k1, v1⟩ := kv
    rcases hp : alook schema.properties k1 with _ | fs1
    · simp [fixFields, hp] at hok
    · simp only [fixFields, hp] at hok
      rcases hrest : fixFields schema rest with e | r0
      · rw [hrest] at hok
        simp [Except.map] at hok
      · rw [hrest] at hok
        simp only [Except.map] at hok
        have hshape : (k1, if fs1.type?.isNone then anyTypeRepair v1 else v1) :: r0 = r := by
          injection hok

        by_cases hk : k1 = k
        · subst hk
          have hv1 : v1 = v := by
            rw [show alook ((k1, v1) :: rest) k1 = some v1 by simp [alook]] at hv
            exact Option.some.inj hv
          have hfs1 : fs1 = fs := by
            rw [hp] at hfs
            exact Option.some.inj hfs
          have hnone : fs1.type?.isNone = false := by
            rw [hfs1, hts]
            rfl
          rw [← hshape, hv1]
          simp [alook, hnone]
        · rw [show alook ((k1, v1) :: rest) k = alook rest k by simp [alook, hk]] at hv
          rw [← hshape,
            show alook ((k1, if fs1.type?.isNone then anyTypeRepair v1 else v1) :: r0) k
              = alook r0 k by simp [alook, hk]]
          exact ih r0 hrest k v fs ts hv hfs hts

/-- C10: `fix_record_anytype` never modifies a field whose schema entry has
a declared (non-null) type; only untyped fields are rewritten. -/
theorem fix_anytype_preserves_typed (rec rec' : Rec) (schema : Schema)
    (k : String) (v : PyVal) (fs : FieldSchema) (ts : List String)
    (hok : fix_record_anytype rec schema = .ok rec')
    (hv : alook rec k = some v)
    (hfs : alook schema.properties k = some fs)
    (hts : fs.type? = some ts) :
    alook rec' k = some v :=
  fixFields_typed_frame schema rec rec' hok k v fs ts hv hfs hts

/-- C10 witness: the typed field `K` keeps its value while the untyped
field `a` is rewritten. -/
theorem fix_anytype_preserves_typed_w :
    alook [("K", PyVal.str "5"), ("a", PyVal.float ⟨42, 0⟩)] "K"
      = some (PyVal.str "5") :=
  fix_anytype_preserves_typed
    [("K", PyVal.str "5"), ("a", PyVal.str "42")]
    [("K", PyVal.str "5"), ("a", PyVal.float ⟨42, 0⟩)]
    ⟨[("K", ⟨some ["string"]⟩), ("a", ⟨Option.none⟩)]⟩
    "K" (PyVal.str "5") ⟨some ["string"]⟩ ["string"]
    rfl rfl rfl rfl

/-! ### Stream version assignment -/

/-- C6 counterexample: a `version` bookmark that exists but is `0` is falsy,
so `get_stream_version` mints a fresh value instead of returning it —
refuting the claim for a keyed stream whose version bookmark exists. -/
theorem get_stream_version_zero_bookmark :
    get_bookmark wStV0 "s" "version" = PyVal.int 0 ∧
    get_stream_version wCatK wStV0 5 = PyVal.int 5 ∧
    PyVal.int 5 ≠ PyVal.int 0 :=
  ⟨rfl, rfl, by decide⟩

/-- C6 (amended): `get_stream_version` returns the bookmarked version when
the stream has a truthy replication key and the `version` bookmark is
truthy; it mints the current wall clock in milliseconds when the bookmark
is absent, null or otherwise falsy (e.g. `0`), and always mints it when the
stream has no replication key.  It is a pure reader: it returns only a
value and takes no writable handle to the store. -/
theorem get_stream_version_characterization (cat : Catalog) (st : TapState)
    (now_ms : Int) :
    (rkTruthy cat = true →
      pyTruthy (get_bookmark st cat.tap_stream_id "version") = true →
      get_stream_version cat st now_ms
        = get_bookmark st cat.tap_stream_id "version") ∧
    (rkTruthy cat = true →
      pyTruthy (get_bookmark st cat.tap_stream_id "version") = false →
      get_stream_version cat st now_ms = .int now_ms) ∧
    (rkTruthy cat = false → get_stream_version cat st now_ms = .int now_ms) := by
  refine ⟨fun h1 h2 => ?_, fun h1 h2 => ?_, fun h1 => ?_⟩
  · simp [get_stream_version, h1, h2]
  · simp [get_stream_version, h1, h2]
  · simp [get_stream_version, h1]

/-- C6 witness: a truthy version bookmark is returned unchanged. -/
theorem get_stream_version_characterization_w :
    get_stream_version wCatK [("s", [("version", PyVal.int 7)])] 5
      = PyVal.int 7 :=
  ((get_stream_version_characterization wCatK
    [("s", [("version", PyVal.int 7)])] 5).1 rfl rfl).trans rfl

/-! ### Orchestrator error translation -/

/-- C9: when the pass inside `sync_stream` raises, a
`TapSalesforceException` is re-raised with the same class and the stream
name added to its message (no `from` clause), while any other exception is
wrapped into a generic `Exception` carrying the stream name with the
original exception chained as its cause. -/
theorem sync_stream_error_translation (sf : SF) (cat : Catalog) (st : TapState)
    (now_ms start_time : Int) (ex : Exc)
    (hfail : (sync_records sf cat st now_ms start_time).final = .error ex) :
    (ex.isTap = true → sync_stream sf cat st now_ms start_time =
      .error (.mk true ex.cls ("Error syncing " ++ cat.stream ++ ": " ++ ex.msg)
        Option.none)) ∧
    (ex.isTap = false → sync_stream sf cat st now_ms start_time =
      .error (.mk false "Exception"
        ("Unexpected error syncing " ++ cat.stream ++ ": " ++ ex.msg) (some ex))) := by
  refine ⟨fun h => ?_, fun h => ?_⟩
  · simp only [sync_stream]
    rw [hfail]
    simp [h]
  · simp only [sync_stream]
    rw [hfail]
    simp [h]

/-- C9 witness: a quota `TapSalesforceException` raised by the query engine
is re-raised with its class preserved and the stream name prefixed. -/
theorem sync_stream_error_translation_w :
    sync_stream wSfT wCatN [] 7 10 =
      .error (.mk true "TapSalesforceQuotaExceededException"
        "Error syncing s: quota exceeded" Option.none) :=
  (sync_stream_error_translation wSfT wCatN [] 7 10
    (.mk true "TapSalesforceQuotaExceededException" "quota exceeded" Option.none)
    rfl).1 rfl

/-! ### The chunked end-of-pass bookmark write -/

theorem singer_strptime_datetime (t : Int) :
    singer_strptime (.datetime t) = .error (typeError "strptime argument must be str") :=
  rfl

theorem syncLoop_chunk_never_ok (sf : SF) (cat : Catalog) (ver : PyVal)
    (start_time : Int) (hpk : sf.pk_chunking = true) :
    ∀ (recs : List Rec) (cb : Int) (st : TapState),
      exOk (syncLoop sf cat ver start_time recs cb st).final = false := by
  intro recs
  induction recs with
  | nil =>
    intro cb st
    rcases hq : sf.query_raises with _ | e
    · simp [syncLoop, hq, hpk, singer_strptime, strptime_with_tz, exOk]
    · simp [syncLoop, hq, exOk]
  | cons r rest ih =>
    intro cb st
    simp only [syncLoop]
    rcases hp : postprocess r cat.schema with e | rec
    · simp [hp, exOk]
    · simp only [hp]
      rcases hrk : rkValue cat rec with e | rkv
      · simp [hrk, exOk]
      · simp only [hrk, hpk, if_true]
        rcases rkv with _ | ⟨raw, t⟩
        · simpa using ih cb st
        · by_cases hc : t ≤ start_time ∧ cb < t
          · simp only [hc, if_true]
            simpa using ih t _
          · simp only [hc, if_false]
            simpa using ih cb st

/-- C3: the chunked end-of-pass promotion never happens — line 161 passes
the datetime `chunked_bookmark` to `singer_utils.strptime`, which requires
a string, so every pk-chunked pass raises `TypeError` at pass end instead
of promoting the tracked high-watermark into the cursor bookmark (the
upstream intent, and the spec's wording, is `strftime`). -/
theorem sync_records_chunked_never_completes (sf : SF) (cat : Catalog)
    (st : TapState) (now_ms start_time : Int)
    (hpk : sf.pk_chunking = true) :
    exOk (sync_records sf cat st now_ms start_time).final = false := by
  unfold sync_records
  rcases hs : strptime_with_tz (.str sf.start_date) with e | cb0
  · simp [exOk]
  · simp only []
    exact syncLoop_chunk_never_ok sf cat _ start_time hpk sf.query_result cb0 st

/-- C3 witness: a concrete chunked pass raises at pass end. -/
theorem sync_records_chunked_never_completes_w :
    exOk (sync_records wSfC4 wCatK [] 1 10).final = false :=
  sync_records_chunked_never_completes wSfC4 wCatK [] 1 10 rfl

/-! ### Version rotation for unkeyed streams -/

theorem getLast?_cons_some {α : Type} (a : α) :
    ∀ (l : List α) (b : α), l.getLast? = some b → (a :: l).getLast? = some b := by
  intro l
  cases l with
  | nil => intro b h; exact absurd h (by simp)
  | cons c cs => intro b h; rw [List.getLast?_cons_cons]; exact h

theorem syncLoop_nork (sf : SF) (cat : Catalog) (ver : PyVal)
    (start_time : Int) (hrk : rkTruthy cat = false) :
    ∀ (recs : List Rec) (cb : Int) (st : TapState) (st' : TapState),
      (syncLoop sf cat ver start_time recs cb st).final = .ok st' →
      (syncLoop sf cat ver start_time recs cb st).msgs.getLast?
          = some (.activate (streamName cat) ver) ∧
      get_bookmark st' cat.tap_stream_id "version" = .null := by
  intro recs
  induction recs with
  | nil =>
    intro cb st st' hok
    rcases hq : sf.query_raises with _ | e
    · by_cases hpk : sf.pk_chunking = true
      · exfalso
        have := syncLoop_chunk_never_ok sf cat ver start_time hpk [] cb st
        rw [hok] at this
        simp [exOk] at this
      · simp only [Bool.not_eq_true] at hpk
        simp only [syncLoop, hq, hrk, if_false, hpk] at hok ⊢
        obtain rfl : write_bookmark st cat.tap_stream_id "version" .null = st' := by
          injection hok
        exact ⟨rfl, get_write_self _ _ _ _⟩
    · simp [syncLoop, hq] at hok
  | cons r rest ih =>
    intro cb st st' hok
    simp only [syncLoop] at hok ⊢
    rcases hp : postprocess r cat.schema with e | rec
    · simp [hp] at hok
    · simp only [hp] at hok ⊢
      rcases hrkv : rkValue cat rec with e | rkv
      · simp [hrkv] at hok
      · simp only [hrkv] at hok ⊢
        by_cases hpk : sf.pk_chunking = true
        · exfalso
          simp only [hpk, if_true] at hok
          rcases rkv with _ | ⟨raw, t⟩
          · have := syncLoop_chunk_never_ok sf cat ver start_time hpk rest cb st
            simp only [] at hok
            rw [hok] at this
            simp [exOk] at this
          · simp only [] at hok
            by_cases hc : t ≤ start_time ∧ cb < t
            · rw [if_pos hc] at hok
              simp only [] at hok
              have := syncLoop_chunk_never_ok sf cat ver start_time hpk rest t
                (write_bookmark st cat.tap_stream_id "JobHighestBookmarkSeen"
                  (.str (strftime t)))
              rw [hok] at this
              simp [exOk] at this
            · rw [if_neg hc] at hok
              simp only [] at hok
              have := syncLoop_chunk_never_ok sf cat ver start_time hpk rest cb st
              rw [hok] at this
              simp [exOk] at this
        · simp only [Bool.not_eq_true] at hpk
          simp only [hpk, if_false] at hok ⊢
          rcases rkv with _ | ⟨raw, t⟩
          · simp only [] at hok ⊢
            obtain ⟨hmsg, hbk⟩ := ih cb st st' hok
            exact ⟨getLast?_cons_some _ _ _ hmsg, hbk⟩
          · simp only [] at hok ⊢
            by_cases hc : t ≤ start_time
            · rw [if_pos hc] at hok ⊢
              obtain ⟨hmsg, hbk⟩ := ih cb _ st' hok
              exact ⟨getLast?_cons_some _ _ _ hmsg, hbk⟩
            · rw [if_neg hc] at hok ⊢
              obtain ⟨hmsg, hbk⟩ := ih cb st st' hok
              exact ⟨getLast?_cons_some _ _ _ hmsg, hbk⟩

/-- C5: a completed pass over a stream with no replication key ends with an
activate-version message carrying the pass's version — which is the
wall-clock value `now_ms`, freshly minted because unkeyed streams never
reuse a bookmarked version — and leaves the `version` bookmark cleared
(null) in the final state; two completed passes at distinct clock readings
are therefore tagged with distinct versions. -/
theorem sync_records_nork_version_rotation
    (sf1 sf2 : SF) (cat : Catalog) (st1 st2 : TapState)
    (now1 now2 start1 start2 : Int) (s1 s2 : TapState)
    (hrk : cat.replication_key = Option.none)
    (h1 : (sync_records sf1 cat st1 now1 start1).final = .ok s1)
    (h2 : (sync_records sf2 cat st2 now2 start2).final = .ok s2)
    (hne : now1 ≠ now2) :
    (sync_records sf1 cat st1 now1 start1).msgs.getLast?
        = some (.activate (streamName cat) (.int now1)) ∧
    get_bookmark s1 cat.tap_stream_id "version" = .null ∧
    (sync_records sf2 cat st2 now2 start2).msgs.getLast?
        = some (.activate (streamName cat) (.int now2)) ∧
    get_bookmark s2 cat.tap_stream_id "version" = .null ∧
    PyVal.int now1 ≠ PyVal.int now2 := by
  have hrkt : rkTruthy cat = false := by simp [rkTruthy, hrk]
  have hv1 : get_stream_version cat st1 now1 = .int now1 := by
    simp [get_stream_version, hrkt]
  have hv2 : get_stream_version cat st2 now2 = .int now2 := by
    simp [get_stream_version, hrkt]
  have run1 : (sync_records sf1 cat st1 now1 start1).msgs.getLast?
      = some (.activate (streamName cat) (.int now1)) ∧
      get_bookmark s1 cat.tap_stream_id "version" = .null := by
    unfold sync_records at h1 ⊢
    rcases hs : strptime_with_tz (.str sf1.start_date) with e | cb0
    · rw [hs] at h1
      simp at h1
    · rw [hs] at h1
      simp only [hv1] at h1 ⊢
      exact syncLoop_nork sf1 cat (.int now1) start1 hrkt
        sf1.query_result cb0 st1 s1 h1
  have run2 : (sync_records sf2 cat st2 now2 start2).msgs.getLast?
      = some (.activate (streamName cat) (.int now2)) ∧
      get_bookmark s2 cat.tap_stream_id "version" = .null := by
    unfold sync_records at h2 ⊢
    rcases hs : strptime_with_tz (.str sf2.start_date) with e | cb0
    · rw [hs] at h2
      simp at h2
    · rw [hs] at h2
      simp only [hv2] at h2 ⊢
      exact syncLoop_nork sf2 cat (.int now2) start2 hrkt
        sf2.query_result cb0 st2 s2 h2
  exact ⟨run1.1, run1.2, run2.1, run2.2, by simpa using hne⟩

/-- C5 witness: two concrete unkeyed passes at clock readings 7 and 8. -/
theorem sync_records_nork_version_rotation_w :
    (sync_records wSfN wCatN [] 7 10).msgs.getLast?
        = some (.activate "s" (.int 7)) ∧
    get_bookmark [("s", [("version", PyVal.null)])] "s" "version" = .null ∧
    (sync_records wSfN wCatN [] 8 10).msgs.getLast?
        = some (.activate "s" (.int 8)) ∧
    get_bookmark [("s", [("version", PyVal.null)])] "s" "version" = .null ∧
    PyVal.int 7 ≠ PyVal.int 8 :=
  sync_records_nork_version_rotation wSfN wSfN wCatN [] [] 7 8 10 10
    [("s", [("version", PyVal.null)])] [("s", [("version", PyVal.null)])]
    rfl rfl rfl (by decide)

/-! ### Chunked mid-pass flushes -/

theorem syncLoop_chunk_trace (sf : SF) (cat : Catalog) (ver : PyVal)
    (start_time : Int) (hpk : sf.pk_chunking = true) :
    ∀ (recs : List Rec) (cb : Int) (st : TapState),
      (∀ fl ∈ (syncLoop sf cat ver start_time recs cb st).flushes,
        ∀ sid' key', (sid' = cat.tap_stream_id → key' ≠ "JobHighestBookmarkSeen") →
          get_bookmark fl sid' key' = get_bookmark st sid' key') ∧
      (∀ fl ∈ (syncLoop sf cat ver start_time recs cb st).flushes,
        ∃ w : Int, get_bookmark fl cat.tap_stream_id "JobHighestBookmarkSeen"
            = .str (strftime w) ∧ w ≤ start_time ∧ cb < w) ∧
      ((syncLoop sf cat ver start_time recs cb st).flushes.map
          (fun fl => get_bookmark fl cat.tap_stream_id "JobHighestBookmarkSeen")).Pairwise
        (fun a b => ∃ wa wb : Int,
          a = .str (strftime wa) ∧ b = .str (strftime wb) ∧ wa < wb) := by
  intro recs
  induction recs with
  | nil =>
    intro cb st
    rcases hq : sf.query_raises with _ | e
    · simp [syncLoop, hq, hpk, singer_strptime, strptime_with_tz]
    · simp [syncLoop, hq]
  | cons r rest ih =>
    intro cb st
    simp only [syncLoop]
    rcases hp : postprocess r cat.schema with e | rec
    · simp
    · simp only []
      rcases hrkv : rkValue cat rec with e | rkv
      · simp
      · simp only [hpk, if_true]
        rcases rkv with _ | ⟨raw, t⟩
        · simpa using ih cb st
        · simp only []
          by_cases hc : t ≤ start_time ∧ cb < t
          · rw [if_pos hc]
            simp only []
            obtain ⟨ihA, ihB, ihC⟩ := ih t
              (write_bookmark st cat.tap_stream_id "JobHighestBookmarkSeen"
                (.str (strftime t)))
            refine ⟨?_, ?_, ?_⟩
            · intro fl hfl sid' key' hkk
              rcases List.mem_cons.mp hfl with rfl | hfl2
              · exact get_write_ne st (fun h => hkk h) _
              · rw [ihA fl hfl2 sid' key' hkk]
                exact get_write_ne st (fun h => hkk h) _
            · intro fl hfl
              rcases List.mem_cons.mp hfl with rfl | hfl2
              · exact ⟨t, get_write_self _ _ _ _, hc.1, hc.2⟩
              · obtain ⟨w, hw, hws, hwt⟩ := ihB fl hfl2
                exact ⟨w, hw, hws, lt_trans hc.2 hwt⟩
            · rw [List.map_cons, List.pairwise_cons]
              refine ⟨?_, ihC⟩
              intro b hb
              obtain ⟨fl, hfl, rfl⟩ := List.mem_map.mp hb
              obtain ⟨w, hw, _, hwt⟩ := ihB fl hfl
              exact ⟨t, w, get_write_self _ _ _ _, hw, hwt⟩
          · rw [if_neg hc]
            simpa using ih cb st

/-- C4: during a chunked pass every state flushed before pass end leaves the
authoritative cursor bookmark (the replication-key field) — and every other
bookmark besides `JobHighestBookmarkSeen` — unchanged; each flushed
`JobHighestBookmarkSeen` value is a formatted instant within the pass-start
bound, and successive flushes carry strictly increasing instants (a flush
happens exactly when the candidate advances). -/
theorem sync_records_chunked_frame (sf : SF) (cat : Catalog) (st : TapState)
    (now_ms start_time : Int) (k : String)
    (hpk : sf.pk_chunking = true)
    (hk : cat.replication_key = some k)
    (hkne : k ≠ "JobHighestBookmarkSeen") :
    (∀ fl ∈ (sync_records sf cat st now_ms start_time).flushes,
      get_bookmark fl cat.tap_stream_id k = get_bookmark st cat.tap_stream_id k ∧
      ∀ sid' key', (sid' = cat.tap_stream_id → key' ≠ "JobHighestBookmarkSeen") →
        get_bookmark fl sid' key' = get_bookmark st sid' key') ∧
    (∀ fl ∈ (sync_records sf cat st now_ms start_time).flushes,
      ∃ w : Int, get_bookmark fl cat.tap_stream_id "JobHighestBookmarkSeen"
          = .str (strftime w) ∧ w ≤ start_time) ∧
    ((sync_records sf cat st now_ms start_time).flushes.map
        (fun fl => get_bookmark fl cat.tap_stream_id "JobHighestBookmarkSeen")).Pairwise
      (fun a b => ∃ wa wb : Int,
        a = .str (strftime wa) ∧ b = .str (strftime wb) ∧ wa < wb) := by
  unfold sync_records
  rcases hs : strptime_with_tz (.str sf.start_date) with e | cb0
  · simp
  · simp only []
    obtain ⟨hA, hB, hC⟩ := syncLoop_chunk_trace sf cat
      (get_stream_version cat st now_ms) start_time hpk sf.query_result cb0 st
    refine ⟨?_, ?_, hC⟩
    · intro fl hfl
      exact ⟨hA fl hfl cat.tap_stream_id k (fun _ => hkne), hA fl hfl⟩
    · intro fl hfl
      obtain ⟨w, hw, hws, _⟩ := hB fl hfl
      exact ⟨w, hw, hws⟩

/-- C4 witness: in a concrete chunked pass, the flushed state acquired the
formatted watermark but the cursor field `K` stayed absent (null). -/
theorem sync_records_chunked_frame_w :
    get_bookmark [("s", [("JobHighestBookmarkSeen", PyVal.str "5")])] "s" "K"
        = get_bookmark ([] : TapState) "s" "K" :=
  ((sync_records_chunked_frame wSfC4 wCatK [] 1 10 "K" rfl rfl (by decide)).1
    [("s", [("JobHighestBookmarkSeen", PyVal.str "5")])] (by decide)).1

/-! ### Non-chunked cursor bookmarking -/

theorem getLastD_cons {α : Type} (a d : α) (l : List α) :
    ((a :: l).getLast?).getD d = (l.getLast?).getD a := by
  cases l with
  | nil => rfl
  | cons b bs =>
    rw [List.getLast?_cons_cons]
    rcases h : (b :: bs).getLast? with _ | x
    · simp [List.getLast?_eq_none_iff] at h
    · rfl

theorem mem_of_getLast? {α : Type} :
    ∀ (l : List α) (m : α), l.getLast? = some m → m ∈ l := by
  intro l
  induction l with
  | nil => intro m h; simp at h
  | cons a rest ih =>
    intro m h
    cases rest with
    | nil =>
      simp at h
      simp [h]
    | cons b bs =>
      rw [List.getLast?_cons_cons] at h
      exact List.mem_cons_of_mem a (ih m h)

theorem pairwise_le_getLast? :
    ∀ l : List Int, l.Pairwise (· ≤ ·) →
      ∀ m, l.getLast? = some m → ∀ x ∈ l, x ≤ m := by
  intro l
  induction l with
  | nil => intro _ m h; simp at h
  | cons a rest ih =>
    intro hp m h x hx
    rw [List.pairwise_cons] at hp
    cases rest with
    | nil =>
      simp at h
      rcases List.mem_singleton.mp hx with rfl
      omega
    | cons b bs =>
      rw [List.getLast?_cons_cons] at h
      rcases List.mem_cons.mp hx with rfl | hx2
      · exact hp.1 m (mem_of_getLast? _ m h)
      · exact ih hp.2 m h x hx2

theorem forall₂_getLast? {α β : Type} (R : α → β → Prop) :
    ∀ (l1 : List α) (l2 : List β), List.Forall₂ R l1 l2 →
      ∀ b, l2.getLast? = some b → ∃ a, l1.getLast? = some a ∧ R a b := by
  intro l1
  induction l1 with
  | nil =>
    intro l2 hf b hb
    cases hf
    simp at hb
  | cons a rest ih =>
    intro l2 hf b hb
    cases hf with
    | cons hab htail =>
      rename_i b1 l2t
      cases rest with
      | nil =>
        cases htail
        simp at hb ⊢
        rwa [hb] at hab
      | cons c cs =>
        cases htail with
        | cons hcd htail2 =>
          rename_i d l2tt
          rw [List.getLast?_cons_cons] at hb ⊢
          exact ih _ (List.Forall₂.cons hcd htail2) b hb

theorem qual_pair (k : String) (start : Int) :
    ∀ procs : List Rec,
      (∀ p ∈ procs, ∃ v t, alook p k = some v ∧ strptime_with_tz v = .ok t) →
      List.Forall₂ (fun raw m => strptime_with_tz raw = .ok m)
        (procs.filterMap (qualRaw k start)) (procs.filterMap (qualVal k start)) := by
  intro procs
  induction procs with
  | nil => intro _; simp
  | cons p rest ih =>
    intro h
    obtain ⟨v, t, hv, ht⟩ := h p (by simp)
    have htail := ih (fun q hq => h q (by simp [hq]))
    rw [List.filterMap_cons, List.filterMap_cons]
    have hqr : qualRaw k start p = if t ≤ start then some v else Option.none := by
      simp [qualRaw, hv, ht]
    have hqv : qualVal k start p = if t ≤ start then some t else Option.none := by
      simp [qualVal, rkParsed, hv, ht, Except.toOption]
    by_cases hts : t ≤ start
    · rw [hqr, hqv, if_pos hts, if_pos hts]
      exact List.Forall₂.cons ht htail
    · rw [hqr, hqv, if_neg hts, if_neg hts]
      exact htail

theorem qualVal_eq_filter (k : String) (start : Int) :
    ∀ procs : List Rec,
      procs.filterMap (qualVal k start)
        = (procs.filterMap (rkParsed k)).filter (fun t => decide (t ≤ start)) := by
  intro procs
  induction procs with
  | nil => simp
  | cons p rest ih =>
    rw [List.filterMap_cons, List.filterMap_cons]
    rcases hp : rkParsed k p with _ | t
    · rw [show qualVal k start p = Option.none by simp [qualVal, hp]]
      exact ih
    · rw [show qualVal k start p = if t ≤ start then some t else Option.none by
        simp [qualVal, hp]]
      by_cases hts : t ≤ start
      · rw [if_pos hts, List.filter_cons, if_pos (by simpa using hts)]
        rw [ih]
      · rw [if_neg hts, List.filter_cons, if_neg (by simpa using hts)]
        exact ih

theorem recordPayloads_cons_record (s : String) (r : Rec) (v : PyVal)
    (te : Int) (msgs : List Msg) :
    recordPayloads (.record s r v te :: msgs) = r :: recordPayloads msgs := by
  simp [recordPayloads]

theorem syncLoop_nochunk_char (sf : SF) (cat : Catalog) (ver : PyVal)
    (start_time : Int) (k : String)
    (hpk : sf.pk_chunking = false)
    (hk : cat.replication_key = some k) (hk2 : k ≠ "") :
    ∀ (recs : List Rec) (cb : Int) (st st' : TapState),
      (syncLoop sf cat ver start_time recs cb st).final = .ok st' →
      List.Forall₂ (fun r p => postprocess r cat.schema = .ok p) recs
        (recordPayloads (syncLoop sf cat ver start_time recs cb st).msgs) ∧
      (∀ p ∈ recordPayloads (syncLoop sf cat ver start_time recs cb st).msgs,
        ∃ v t, alook p k = some v ∧ strptime_with_tz v = .ok t) ∧
      get_bookmark st' cat.tap_stream_id k
        = (((recordPayloads (syncLoop sf cat ver start_time recs cb st).msgs).filterMap
              (qualRaw k start_time)).getLast?).getD
            (get_bookmark st cat.tap_stream_id k) := by
  have hrkt : rkTruthy cat = true := by simp [rkTruthy, hk, hk2]
  have hgd : (cat.replication_key).getD "" = k := by simp [hk]
  intro recs
  induction recs with
  | nil =>
    intro cb st st' hok
    rcases hq : sf.query_raises with _ | e
    · simp only [syncLoop, hq, hrkt, hpk, if_true, Bool.false_eq_true, if_false] at hok ⊢
      obtain rfl : st = st' := by injection hok
      simp [recordPayloads]
    · simp [syncLoop, hq] at hok
  | cons r rest ih =>
    intro cb st st' hok
    simp only [syncLoop] at hok ⊢
    rcases hp : postprocess r cat.schema with e | rec
    · rw [hp] at hok
      simp at hok
    · rw [hp] at hok
      simp only [] at hok ⊢
      rcases halk : alook rec k with _ | v
      · have hrv : rkValue cat rec = .error (keyError k) := by
          simp [rkValue, hk, hk2, halk]
        rw [hrv] at hok
        simp at hok
      · rcases hzt : strptime_with_tz v with e | t
        · have hrv : rkValue cat rec = .error e := by
            simp [rkValue, hk, hk2, halk, hzt]
          rw [hrv] at hok
          simp at hok
        · have hrv : rkValue cat rec = .ok (some (v, t)) := by
            simp [rkValue, hk, hk2, halk, hzt]
          rw [hrv] at hok ⊢
          simp only [hpk, Bool.false_eq_true, if_false] at hok ⊢
          by_cases hts : t ≤ start_time
          · rw [if_pos hts] at hok ⊢
            simp only [] at hok ⊢
            rw [hgd] at hok ⊢
            obtain ⟨ihF, ihP, ihB⟩ := ih cb (write_bookmark st cat.tap_stream_id k v) st' hok
            rw [recordPayloads_cons_record]
            have hql : qualRaw k start_time rec = some v := by
              simp [qualRaw, halk, hzt, hts]
            refine ⟨List.Forall₂.cons hp ihF, ?_, ?_⟩
            · intro p hpmem
              rcases List.mem_cons.mp hpmem with rfl | hmem2
              · exact ⟨v, t, halk, hzt⟩
              · exact ihP p hmem2
            · rw [List.filterMap_cons, hql, getLastD_cons, ihB, get_write_self]
          · rw [if_neg hts] at hok ⊢
            simp only [] at hok ⊢
            obtain ⟨ihF, ihP, ihB⟩ := ih cb st st' hok
            rw [recordPayloads_cons_record]
            have hql : qualRaw k start_time rec = Option.none := by
              simp [qualRaw, halk, hzt, hts]
            refine ⟨List.Forall₂.cons hp ihF, ?_, ?_⟩
            · intro p hpmem
              rcases List.mem_cons.mp hpmem with rfl | hmem2
              · exact ⟨v, t, halk, hzt⟩
              · exact ihP p hmem2
            · rw [List.filterMap_cons, hql, ihB]

/-- C1 counterexample: a completed keyed non-chunked pass whose records
arrive out of order (replication-key values 5 then 3, both ≤ pass start 10)
persists the cursor `"3"` — the last in-bound value, not the maximum 5. -/
theorem sync_records_cursor_not_max :
    (sync_records wSfC1 wCatK [] 1 10).final = .ok wStC1 ∧
    (recordPayloads (sync_records wSfC1 wCatK [] 1 10).msgs).filterMap (rkParsed "K")
        = [5, 3] ∧
    (5 : Int) ≤ 10 ∧
    get_bookmark wStC1 "s" "K" = .str "3" ∧
    strptime_with_tz (.str "3") = .ok 3 ∧
    ¬ (5 : Int) ≤ 3 :=
  ⟨rfl, by decide, by decide, rfl, rfl, by decide⟩

/-- C1 (amended): for a keyed, non-chunked pass that completes, under the
spec's stated arrival assumption — emitted replication-key values are
non-decreasing — and with at least one value within pass start, every query
record is emitted (also those beyond pass start) and the persisted cursor
bookmark is the raw record value parsing to the maximum in-bound
replication-key value; values beyond pass start never advance it.  Without
the arrival assumption the claim fails as stated: see
`sync_records_cursor_not_max`, where the last in-bound value 3 is
persisted instead of the maximum 5. -/
theorem sync_records_cursor_max (sf : SF) (cat : Catalog) (st : TapState)
    (now_ms start_time : Int) (k : String) (st' : TapState)
    (hpk : sf.pk_chunking = false)
    (hk : cat.replication_key = some k) (hk2 : k ≠ "")
    (hok : (sync_records sf cat st now_ms start_time).final = .ok st')
    (hmono : ((recordPayloads (sync_records sf cat st now_ms start_time).msgs).filterMap
        (rkParsed k)).Pairwise (· ≤ ·))
    (hex : ∃ t ∈ (recordPayloads (sync_records sf cat st now_ms start_time).msgs).filterMap
        (rkParsed k), t ≤ start_time) :
    (recordPayloads (sync_records sf cat st now_ms start_time).msgs).length
        = sf.query_result.length ∧
    ∃ raw m, get_bookmark st' cat.tap_stream_id k = raw ∧
      strptime_with_tz raw = .ok m ∧ m ≤ start_time ∧
      m ∈ (recordPayloads (sync_records sf cat st now_ms start_time).msgs).filterMap
        (rkParsed k) ∧
      ∀ x ∈ (recordPayloads (sync_records sf cat st now_ms start_time).msgs).filterMap
        (rkParsed k), x ≤ start_time → x ≤ m := by
  unfold sync_records at hok hmono hex ⊢
  rcases hs : strptime_with_tz (.str sf.start_date) with e | cb0
  · rw [hs] at hok
    simp at hok
  · rw [hs] at hok hmono hex
    simp only [] at hok hmono hex ⊢
    obtain ⟨hF, hP, hB⟩ := syncLoop_nochunk_char sf cat
      (get_stream_version cat st now_ms) start_time k hpk hk hk2
      sf.query_result cb0 st st' hok
    refine ⟨(List.Forall₂.length_eq hF).symm, ?_⟩
    have hpair := qual_pair k start_time
      (recordPayloads (syncLoop sf cat (get_stream_version cat st now_ms)
        start_time sf.query_result cb0 st).msgs) hP
    have hqf := qualVal_eq_filter k start_time
      (recordPayloads (syncLoop sf cat (get_stream_version cat st now_ms)
        start_time sf.query_result cb0 st).msgs)
    obtain ⟨t0, ht0mem, ht0le⟩ := hex
    have ht0f : t0 ∈ ((recordPayloads (syncLoop sf cat (get_stream_version cat st now_ms)
        start_time sf.query_result cb0 st).msgs).filterMap (rkParsed k)).filter
        (fun t => decide (t ≤ start_time)) :=
      List.mem_filter.mpr ⟨ht0mem, by simpa using ht0le⟩
    rcases hgl : (((recordPayloads (syncLoop sf cat (get_stream_version cat st now_ms)
        start_time sf.query_result cb0 st).msgs).filterMap (rkParsed k)).filter
        (fun t => decide (t ≤ start_time))).getLast? with _ | m
    · rw [List.getLast?_eq_none_iff] at hgl
      rw [hgl] at ht0f
      simp at ht0f
    · have hq_gl : ((recordPayloads (syncLoop sf cat (get_stream_version cat st now_ms)
          start_time sf.query_result cb0 st).msgs).filterMap
          (qualVal k start_time)).getLast? = some m := by
        rw [hqf]
        exact hgl
      obtain ⟨raw, hraw_gl, hraw_parse⟩ := forall₂_getLast? _ _ _ hpair m hq_gl
      rw [hraw_gl] at hB
      have hmmem := mem_of_getLast? _ m hgl
      have hmf := List.mem_filter.mp hmmem
      refine ⟨raw, m, ?_, hraw_parse, by simpa using hmf.2, hmf.1, ?_⟩
      · simpa using hB
      · intro x hx hxle
        exact pairwise_le_getLast? _ (hmono.filter _) m hgl x
          (List.mem_filter.mpr ⟨hx, by simpa using hxle⟩)

/-- C1 witness: an in-order world (values 3 then 5, pass start 10) —
every record is emitted. -/
theorem sync_records_cursor_max_w :
    (recordPayloads (sync_records wSfC1b wCatK [] 1 10).msgs).length
        = wSfC1b.query_result.length :=
  (sync_records_cursor_max wSfC1b wCatK [] 1 10 "K"
    [("s", [("K", PyVal.str "5")])]
    rfl rfl (by decide) rfl (by decide) (by decide)).1

/-! ### Resumable batch-job driver -/

theorem removeFirst_cons_self (b : String) (l : List String) :
    removeFirst (b :: l) b = l := by
  simp [removeFirst]

theorem drainBatch_congr (cat : Catalog) (ver : PyVal) (start_time : Int) :
    ∀ (recs : List Rec) (cb cb' : Int),
      (drainBatch cat ver start_time recs cb).1
          = (drainBatch cat ver start_time recs cb').1 ∧
      (drainBatch cat ver start_time recs cb).2.1
          = (drainBatch cat ver start_time recs cb').2.1 ∧
      ∀ e, ((drainBatch cat ver start_time recs cb).2.2 = .error e ↔
            (drainBatch cat ver start_time recs cb').2.2 = .error e) := by
  intro recs
  induction recs with
  | nil =>
    intro cb cb'
    refine ⟨rfl, rfl, fun e => ?_⟩
    simp [drainBatch]
  | cons r rest ih =>
    intro cb cb'
    simp only [drainBatch]
    rcases hp : postprocess r cat.schema with e0 | rec
    · exact ⟨rfl, rfl, fun e => Iff.rfl⟩
    · simp only []
      rcases hrv : rkValue cat rec with e0 | rkv
      · exact ⟨rfl, rfl, fun e => Iff.rfl⟩
      · simp only []
        rcases rkv with _ | ⟨raw, t⟩
        · simp only []
          obtain ⟨h1, h2, h3⟩ := ih cb cb'
          exact ⟨by rw [h1], by rw [h2], fun e => by rw [h3 e]⟩
        · simp only []
          obtain ⟨h1, h2, h3⟩ := ih
            (if t ≤ start_time ∧ cb < t then t else cb)
            (if t ≤ start_time ∧ cb' < t then t else cb')
          exact ⟨by rw [h1], by rw [h2], fun e => by rw [h3 e]⟩

theorem drainBatch_ok_congr (cat : Catalog) (ver : PyVal) (start_time : Int)
    (recs : List Rec) (cb cb' : Int) :
    exOk (drainBatch cat ver start_time recs cb).2.2
      = exOk (drainBatch cat ver start_time recs cb').2.2 := by
  obtain ⟨_, _, h3⟩ := drainBatch_congr cat ver start_time recs cb cb'
  rcases hx : (drainBatch cat ver start_time recs cb).2.2 with e | c
  · rw [(h3 e).mp hx]
  · rcases hy : (drainBatch cat ver start_time recs cb').2.2 with e | c'
    · rw [(h3 e).mpr hy] at hx
      exact Except.noConfusion hx
    · rfl

theorem drainBatch_msgs_congr (cat : Catalog) (ver : PyVal) (start_time : Int)
    (recs : List Rec) (cb cb' : Int) :
    (drainBatch cat ver start_time recs cb).1
      = (drainBatch cat ver start_time recs cb').1 :=
  (drainBatch_congr cat ver start_time recs cb cb').1

theorem watermarkAfter_cons (sf : SF) (cat : Catalog) (job_id : String)
    (ver : PyVal) (start_time : Int) (cb : Int) (b : String) (l : List String) :
    watermarkAfter sf cat job_id ver start_time cb (b :: l)
      = watermarkAfter sf cat job_id ver start_time
          (batchWatermark sf cat job_id ver start_time cb b) l := by
  simp [watermarkAfter]

theorem exOk_iff_ok {α : Type} (x : Except Exc α) :
    exOk x = true ↔ ∃ a, x = .ok a := by
  cases x <;> simp [exOk]

theorem resumeLoop_char (sf : SF) (cat : Catalog) (job_id : String)
    (ver : PyVal) (start_time : Int) :
    ∀ (bs : List String) (cb : Int) (st : TapState),
      (∀ b ∈ bs, batchOK sf cat job_id ver start_time b = true) →
      (resumeLoop sf cat job_id ver start_time bs bs cb st).requests = bs ∧
      (resumeLoop sf cat job_id ver start_time bs bs cb st).msgs
          = bs.flatMap (batchMsgs sf cat job_id ver start_time) ∧
      exOk (resumeLoop sf cat job_id ver start_time bs bs cb st).final = true ∧
      (resumeLoop sf cat job_id ver start_time bs bs cb st).flushes.length
          = bs.length ∧
      (∀ (i : Nat) (fl : TapState),
        (resumeLoop sf cat job_id ver start_time bs bs cb st).flushes[i]? = some fl →
        get_bookmark fl cat.tap_stream_id "BatchIDs" = .strList (bs.drop (i + 1)) ∧
        get_bookmark fl cat.tap_stream_id "JobHighestBookmarkSeen"
          = .str (strftime (watermarkAfter sf cat job_id ver start_time cb
              (bs.take (i + 1)))) ∧
        (∀ sid' key', (sid' = cat.tap_stream_id →
            key' ≠ "BatchIDs" ∧ key' ≠ "JobHighestBookmarkSeen") →
          get_bookmark fl sid' key' = get_bookmark st sid' key')) := by
  intro bs
  induction bs with
  | nil =>
    intro cb st hall
    refine ⟨rfl, rfl, rfl, rfl, ?_⟩
    intro i fl hfl
    simp [resumeLoop] at hfl
  | cons b rest ih =>
    intro cb st hall
    have hbok : exOk (drainBatch cat ver start_time
        (sf.batch_results job_id b) cb).2.2 = true := by
      rw [drainBatch_ok_congr cat ver start_time _ cb 0]
      exact hall b (by simp)
    obtain ⟨cb1, hdr⟩ := (exOk_iff_ok _).mp hbok
    have hmsgs_b : (drainBatch cat ver start_time
        (sf.batch_results job_id b) cb).1
        = batchMsgs sf cat job_id ver start_time b :=
      drainBatch_msgs_congr cat ver start_time _ cb 0
    have hstep : resumeLoop sf cat job_id ver start_time (b :: rest) (b :: rest) cb st
        = ⟨(drainBatch cat ver start_time (sf.batch_results job_id b) cb).1
              ++ (resumeLoop sf cat job_id ver start_time rest rest cb1
                  (write_bookmark
                    (write_bookmark st cat.tap_stream_id "JobHighestBookmarkSeen"
                      (.str (strftime cb1)))
                    cat.tap_stream_id "BatchIDs" (.strList rest))).msgs,
            write_bookmark
                (write_bookmark st cat.tap_stream_id "JobHighestBookmarkSeen"
                  (.str (strftime cb1)))
                cat.tap_stream_id "BatchIDs" (.strList rest)
              :: (resumeLoop sf cat job_id ver start_time rest rest cb1
                  (write_bookmark
                    (write_bookmark st cat.tap_stream_id "JobHighestBookmarkSeen"
                      (.str (strftime cb1)))
                    cat.tap_stream_id "BatchIDs" (.strList rest))).flushes,
            b :: (resumeLoop sf cat job_id ver start_time rest rest cb1
                  (write_bookmark
                    (write_bookmark st cat.tap_stream_id "JobHighestBookmarkSeen"
                      (.str (strftime cb1)))
                    cat.tap_stream_id "BatchIDs" (.strList rest))).requests,
            (drainBatch cat ver start_time (sf.batch_results job_id b) cb).2.1
              + (resumeLoop sf cat job_id ver start_time rest rest cb1
                  (write_bookmark
                    (write_bookmark st cat.tap_stream_id "JobHighestBookmarkSeen"
                      (.str (strftime cb1)))
                    cat.tap_stream_id "BatchIDs" (.strList rest))).count,
            (resumeLoop sf cat job_id ver start_time rest rest cb1
                  (write_bookmark
                    (write_bookmark st cat.tap_stream_id "JobHighestBookmarkSeen"
                      (.str (strftime cb1)))
                    cat.tap_stream_id "BatchIDs" (.strList rest))).final⟩ := by
      rw [show resumeLoop sf cat job_id ver start_time (b :: rest) (b :: rest) cb st
          = (let dr := drainBatch cat ver start_time (sf.batch_results job_id b) cb
             match dr.2.2 with
             | .error e => ⟨dr.1, [], [b], dr.2.1, .error e⟩
             | .ok cb1 =>
               let st1 := write_bookmark st cat.tap_stream_id
                 "JobHighestBookmarkSeen" (.str (strftime cb1))
               let live1 := removeFirst (b :: rest) b
               let st2 := write_bookmark st1 cat.tap_stream_id "BatchIDs"
                 (.strList live1)
               let out := resumeLoop sf cat job_id ver start_time rest live1 cb1 st2
               ⟨dr.1 ++ out.msgs, st2 :: out.flushes, b :: out.requests,
                 dr.2.1 + out.count, out.final⟩) from rfl]
      rw [removeFirst_cons_self]
      simp only [hdr]
    have hwm : batchWatermark sf cat job_id ver start_time cb b = cb1 := by
      simp [batchWatermark, hdr]
    obtain ⟨ihR, ihM, ihF, ihL, ihIdx⟩ := ih cb1
      (write_bookmark
        (write_bookmark st cat.tap_stream_id "JobHighestBookmarkSeen"
          (.str (strftime cb1)))
        cat.tap_stream_id "BatchIDs" (.strList rest))
      (fun b2 hb2 => hall b2 (by simp [hb2]))
    rw [hstep]
    refine ⟨by rw [ihR], ?_, ihF, by simpa using ihL, ?_⟩
    · rw [List.flatMap_cons, hmsgs_b, ihM]
    · intro i fl hfl
      cases i with
      | zero =>
        rw [List.getElem?_cons_zero] at hfl
        obtain rfl : write_bookmark
            (write_bookmark st cat.tap_stream_id "JobHighestBookmarkSeen"
              (.str (strftime cb1)))
            cat.tap_stream_id "BatchIDs" (.strList rest) = fl := by
          injection hfl
        refine ⟨get_write_self _ _ _ _, ?_, ?_⟩
        · rw [get_write_ne _ (fun _ => by decide) _, get_write_self]
          simp only [List.take_succ_cons, List.take_zero, watermarkAfter_cons, hwm]
          simp [watermarkAfter]
        · intro sid' key' hkk
          by_cases hs : sid' = cat.tap_stream_id
          · obtain ⟨hk1, hk2⟩ := hkk hs
            subst hs
            rw [get_write_ne _ (fun _ => hk1) _, get_write_ne _ (fun _ => hk2) _]
          · rw [get_write_ne _ (fun h => absurd h hs) _,
              get_write_ne _ (fun h => absurd h hs) _]
      | succ i =>
        rw [List.getElem?_cons_succ] at hfl
        obtain ⟨hBk, hWm, hFr⟩ := ihIdx i fl hfl
        refine ⟨?_, ?_, ?_⟩
        · rw [hBk, List.drop_succ_cons]
        · rw [hWm, List.take_succ_cons, watermarkAfter_cons, hwm]
        · intro sid' key' hkk
          rw [hFr sid' key' hkk]
          by_cases hs : sid' = cat.tap_stream_id
          · obtain ⟨hk1, hk2⟩ := hkk hs
            subst hs
            rw [get_write_ne _ (fun _ => hk1) _, get_write_ne _ (fun _ => hk2) _]
          · rw [get_write_ne _ (fun h => absurd h hs) _,
              get_write_ne _ (fun h => absurd h hs) _]

theorem resumeLoop_ok_batches (sf : SF) (cat : Catalog) (job_id : String)
    (ver : PyVal) (start_time : Int) :
    ∀ (bs live : List String) (cb : Int) (st : TapState),
      exOk (resumeLoop sf cat job_id ver start_time bs live cb st).final = true →
      ∀ b ∈ bs, batchOK sf cat job_id ver start_time b = true := by
  intro bs
  induction bs with
  | nil =>
    intro live cb st h b hb
    simp at hb
  | cons b0 rest ih =>
    intro live cb st h b hb
    simp only [resumeLoop] at h
    rcases hdr : (drainBatch cat ver start_time (sf.batch_results job_id b0) cb).2.2
      with e | cb1
    · rw [hdr] at h
      simp [exOk] at h
    · rw [hdr] at h
      simp only [] at h
      rcases List.mem_cons.mp hb with rfl | hb2
      · unfold batchOK
        rw [drainBatch_ok_congr cat ver start_time (sf.batch_results job_id b) 0 cb,
          hdr]
        rfl
      · exact ih _ cb1 _ h b hb2

/-- C2: after each batch of `resume_syncing_bulk_query` is fully drained,
the flushed snapshot carries the advanced watermark under
`JobHighestBookmarkSeen` together with the `BatchIDs` list shortened by that
batch (the durable effect of writing the watermark, then removing the id,
then flushing); the persisted lists are successive suffixes, so a removed
id is never re-listed; and re-invoking the driver on any flushed snapshot
requests exactly the remaining batch ids — never a completed one — and
emits exactly the remaining batches' records. -/
theorem resume_batch_idempotence
    (sf : SF) (cat : Catalog) (job_id : String) (st : TapState)
    (now_ms start_time : Int) (ids : List String) (cb0 : Int) (stEnd : TapState)
    (hb : get_bookmark st cat.tap_stream_id "BatchIDs" = .strList ids)
    (hnd : ids.Nodup)
    (hcb : strptime_with_tz (resumeSeed sf cat st) = .ok cb0)
    (hok : (resume_syncing_bulk_query sf cat job_id st now_ms start_time).final
        = .ok stEnd) :
    (resume_syncing_bulk_query sf cat job_id st now_ms start_time).requests = ids ∧
    (resume_syncing_bulk_query sf cat job_id st now_ms start_time).msgs
        = ids.flatMap (batchMsgs sf cat job_id
            (get_stream_version cat st now_ms) start_time) ∧
    (resume_syncing_bulk_query sf cat job_id st now_ms start_time).flushes.length
        = ids.length ∧
    ∀ (i : Nat) (fl : TapState),
      (resume_syncing_bulk_query sf cat job_id st now_ms start_time).flushes[i]?
          = some fl →
      get_bookmark fl cat.tap_stream_id "BatchIDs"
          = .strList (ids.drop (i + 1)) ∧
      get_bookmark fl cat.tap_stream_id "JobHighestBookmarkSeen"
          = .str (strftime (watermarkAfter sf cat job_id
              (get_stream_version cat st now_ms) start_time cb0
              (ids.take (i + 1)))) ∧
      (resume_syncing_bulk_query sf cat job_id fl now_ms start_time).requests
          = ids.drop (i + 1) ∧
      (∀ b ∈ ids.take (i + 1),
        b ∉ (resume_syncing_bulk_query sf cat job_id fl now_ms start_time).requests) ∧
      (resume_syncing_bulk_query sf cat job_id fl now_ms start_time).msgs
          = (ids.drop (i + 1)).flatMap (batchMsgs sf cat job_id
              (get_stream_version cat st now_ms) start_time) := by
  have hres : resume_syncing_bulk_query sf cat job_id st now_ms start_time
      = resumeLoop sf cat job_id (get_stream_version cat st now_ms) start_time
          ids ids cb0 st := by
    unfold resume_syncing_bulk_query
    rw [hcb, hb]
  rw [hres] at hok ⊢
  have hfin : exOk (resumeLoop sf cat job_id (get_stream_version cat st now_ms)
      start_time ids ids cb0 st).final = true := by
    rw [hok]
    rfl
  have hall := resumeLoop_ok_batches sf cat job_id
    (get_stream_version cat st now_ms) start_time ids ids cb0 st hfin
  obtain ⟨hR, hM, _, hL, hIdx⟩ := resumeLoop_char sf cat job_id
    (get_stream_version cat st now_ms) start_time ids cb0 st hall
  refine ⟨hR, hM, hL, ?_⟩
  intro i fl hfl
  obtain ⟨hBk, hWm, hFr⟩ := hIdx i fl hfl
  have hver2 : get_stream_version cat fl now_ms
      = get_stream_version cat st now_ms := by
    unfold get_stream_version
    rw [hFr cat.tap_stream_id "version" (fun _ => ⟨by decide, by decide⟩)]
  have hseed2 : resumeSeed sf cat fl
      = .str (strftime (watermarkAfter sf cat job_id
          (get_stream_version cat st now_ms) start_time cb0 (ids.take (i + 1)))) := by
    unfold resumeSeed
    rw [hWm]
    simp [pyTruthy, strftime_ne_empty]
  have hres2 : resume_syncing_bulk_query sf cat job_id fl now_ms start_time
      = resumeLoop sf cat job_id (get_stream_version cat st now_ms) start_time
          (ids.drop (i + 1)) (ids.drop (i + 1))
          (watermarkAfter sf cat job_id (get_stream_version cat st now_ms)
            start_time cb0 (ids.take (i + 1))) fl := by
    unfold resume_syncing_bulk_query
    rw [hseed2, strptime_with_tz_strftime, hBk, hver2]
  have hall2 : ∀ b ∈ ids.drop (i + 1),
      batchOK sf cat job_id (get_stream_version cat st now_ms) start_time b = true :=
    fun b hb2 => hall b ((List.drop_sublist (i + 1) ids).subset hb2)
  obtain ⟨hR2, hM2, _, _, _⟩ := resumeLoop_char sf cat job_id
    (get_stream_version cat st now_ms) start_time (ids.drop (i + 1))
    (watermarkAfter sf cat job_id (get_stream_version cat st now_ms)
      start_time cb0 (ids.take (i + 1))) fl hall2
  refine ⟨hBk, hWm, by rw [hres2, hR2], ?_, by rw [hres2, hM2]⟩
  intro b hbtake
  rw [hres2, hR2]
  have hnd2 := hnd
  rw [← List.take_append_drop (i + 1) ids] at hnd2
  have hdisj := (List.nodup_append.mp hnd2).2.2
  exact fun hbdrop => hdisj hbtake hbdrop

/-- C2 witness: a concrete two-batch resume — the first flush lists only the
second batch. -/
theorem resume_batch_idempotence_w :
    get_bookmark [("s", [("BatchIDs", PyVal.strList ["b2"]),
        ("JobHighestBookmarkSeen", PyVal.str "4")])] "s" "BatchIDs"
      = PyVal.strList ["b2"] :=
  ((resume_batch_idempotence wSfR wCatK "j" wStR 1 10 ["b1", "b2"] 0
    [("s", [("BatchIDs", PyVal.strList []),
        ("JobHighestBookmarkSeen", PyVal.str "6")])]
    rfl (by decide) rfl rfl).2.2.2 0
    [("s", [("BatchIDs", PyVal.strList ["b2"]),
        ("JobHighestBookmarkSeen", PyVal.str "4")])] rfl).1

end TapSF
